import Mathlib

/-!
Shallow embedding of the matrixrs library (src/src/matrixrs/lib.rs):
a generic dense 2D matrix `Matrix<T>` stored as a row-major list of rows,
together with its constructors, accessors, structural operations and the
numeric operator suite.  Rust's fatal failures (index out of bounds,
`assert!` violations) are modelled with `Except MErr`.
-/

namespace Matrixrs

/-- The two fatal failure modes of the library: an out-of-bounds vector
index, and an `assert!` precondition violation. -/
inductive MErr where
  | outOfBounds
  | assertionFailed
deriving DecidableEq

/-- `Matrix<T>`: row count `m`, column count `n`, and the table of data
values, a sequence of rows (`data : ~[~[T]]` in the source). -/
structure Matrix (T : Type) where
  m : Nat
  n : Nat
  data : List (List T)
deriving DecidableEq

variable {T : Type}

/-- The shape invariant of the data model: `data` has exactly `m` rows and
every row has exactly `n` entries. -/
def Matrix.wf (A : Matrix T) : Prop :=
  A.data.length = A.m ∧ ∀ r ∈ A.data, r.length = A.n

instance (A : Matrix T) : Decidable A.wf := by
  unfold Matrix.wf; infer_instance

/-- `from_fn(m, n, func)`: an m×n matrix whose cell `(i,j)` is `func(i,j)`,
rows built outer-to-inner in row-major order. -/
def Matrix.from_fn (m n : Nat) (f : Nat → Nat → T) : Matrix T :=
  ⟨m, n, (List.range m).map fun i => (List.range n).map fun j => f i j⟩

/-- `size()`: the `(rows, columns)` pair. -/
def Matrix.size (A : Matrix T) : Nat × Nat :=
  (A.m, A.n)

/-- `from_T(m, n, val)`: an m×n matrix with every cell a clone of `val`. -/
def Matrix.from_T (m n : Nat) (v : T) : Matrix T :=
  ⟨m, n, (List.range m).map fun _ => List.replicate n v⟩

/-- `at(row, col)`: a clone of `self.data[row][col]`; the row index is
resolved first, and either index out of range is a fatal bounds error. -/
def Matrix.at' (A : Matrix T) (row col : Nat) : Except MErr T :=
  match A.data[row]? with
  | none => .error .outOfBounds
  | some r =>
    match r[col]? with
    | none => .error .outOfBounds
    | some x => .ok x

/-- The value stored at `(i, j)`, with a default outside the table; used
to state what the fallible accessors return on in-bounds indices. -/
def Matrix.cellD [Inhabited T] (A : Matrix T) (i j : Nat) : T :=
  (A.data.getD i []).getD j default

/-- `row(row)`: row `row` as a 1×n matrix; indexing `self.data[row]` fails
out of bounds for `row >= m`. -/
def Matrix.row (A : Matrix T) (r : Nat) : Except MErr (Matrix T) :=
  match A.data[r]? with
  | none => .error .outOfBounds
  | some rw => .ok ⟨1, A.n, [rw]⟩

/-- `col(col)`: column `col` as an m×1 matrix, built by pushing `~[at(i,col)]`
for each `i` in `range(0, m)`. -/
def Matrix.col (A : Matrix T) (c : Nat) : Except MErr (Matrix T) :=
  ((List.range A.m).mapM fun i => (A.at' i c).map fun x => [x]).map
    fun d => ⟨A.m, 1, d⟩

/-- `from_fn` applied to a generator that may itself fail (because it calls
`at`): cells are produced in row-major order and the first failure aborts
the construction, as in the source. -/
def Matrix.from_fnE (m n : Nat) (f : Nat → Nat → Except MErr T) :
    Except MErr (Matrix T) :=
  ((List.range m).mapM fun i => (List.range n).mapM fun j => f i j).map
    fun d => ⟨m, n, d⟩

/-- `augment(mat)`: the m×(n + mat.n) matrix whose cell `(i,j)` is
`self.at(i,j)` for `j < n` and `mat.at(i, j - n)` otherwise. -/
def Matrix.augment (A B : Matrix T) : Except MErr (Matrix T) :=
  Matrix.from_fnE A.m (A.n + B.n) fun i j =>
    if j < A.n then A.at' i j else B.at' i (j - A.n)

/-- `transpose()`: the n×m matrix whose cell `(i,j)` is `self.at(j,i)`. -/
def Matrix.transpose (A : Matrix T) : Except MErr (Matrix T) :=
  Matrix.from_fnE A.n A.m fun i j => A.at' j i

/-- `map(mapper)`: the same-shape matrix whose cell `(i,j)` is
`mapper(self.at(i,j))`. -/
def Matrix.map (A : Matrix T) (f : T → T) : Except MErr (Matrix T) :=
  Matrix.from_fnE A.m A.n fun i j => (A.at' i j).map f

/-- `sum()`: `apply` visits every coordinate in row-major order and the
visitor folds `acc = acc + self.at(i,j)` from `Zero::zero()`. -/
def Matrix.sum [Add T] [Zero T] (A : Matrix T) : Except MErr T :=
  (List.range A.m).foldlM (fun acc i =>
    (List.range A.n).foldlM (fun acc2 j => (A.at' i j).map fun x => acc2 + x)
      acc) 0

/-- `dot(other)`: folds `sum = sum + self.at(0,i) * other.at(i,0)` over
`i` in `range(0, self.n)`, from `Zero::zero()`. -/
def Matrix.dot [Add T] [Mul T] [Zero T] (A B : Matrix T) : Except MErr T :=
  (List.range A.n).foldlM (fun acc i => do
    let a ← A.at' 0 i
    let b ← B.at' i 0
    pure (acc + a * b)) 0

/-- `Eq::eq`: equal sizes, then `apply` walks every cell keeping a flag
that drops to `false` at the first unequal pair; unequal sizes return
`false` without touching any element. -/
def Matrix.eq [DecidableEq T] (A B : Matrix T) : Except MErr Bool :=
  if A.size = B.size then
    (List.range A.m).foldlM (fun equal i =>
      (List.range A.n).foldlM (fun eq2 j => do
        let a ← A.at' i j
        let b ← B.at' i j
        pure (if a = b then eq2 else false)) equal) true
  else .ok false

/-- `Add::add`: asserts equal sizes then builds the element-wise sum with
`from_fn`. -/
def Matrix.add [Add T] (A B : Matrix T) : Except MErr (Matrix T) :=
  if A.size = B.size then
    Matrix.from_fnE A.m A.n fun i j => do
      let a ← A.at' i j
      let b ← B.at' i j
      pure (a + b)
  else .error .assertionFailed

/-- `Neg::neg`: element-wise negation via `map`. -/
def Matrix.neg [Neg T] (A : Matrix T) : Except MErr (Matrix T) :=
  A.map fun x => -x

/-- `Sub::sub`: `self + (-rhs)`. -/
def Matrix.sub [Add T] [Neg T] (A B : Matrix T) : Except MErr (Matrix T) := do
  let nb ← B.neg
  A.add nb

/-- `Mul::mul`: asserts `self.n == rhs.m`, then cell `(i,j)` of the
`self.m`×`rhs.n` result is `self.row(i).dot(rhs.col(j))`. -/
def Matrix.mul [Add T] [Mul T] [Zero T] (A B : Matrix T) :
    Except MErr (Matrix T) :=
  if A.n = B.m then
    Matrix.from_fnE A.m B.n fun i j => do
      let r ← A.row i
      let c ← B.col j
      r.dot c
  else .error .assertionFailed

/-- `Index::index`: `matrix[(x,y)]` destructures the pair and calls
`at(x,y)`. -/
def Matrix.index (A : Matrix T) (p : Nat × Nat) : Except MErr T :=
  match p with
  | (x, y) => A.at' x y

/-- `Not::not`: the `!` operator forwards to `transpose()`. -/
def Matrix.not (A : Matrix T) : Except MErr (Matrix T) :=
  A.transpose

/-- `BitOr::bitor`: the `|` operator forwards to `augment(rhs)`. -/
def Matrix.bitor (A B : Matrix T) : Except MErr (Matrix T) :=
  A.augment B

/-- The row at index `i` of the data table, `[]` outside the table. -/
def Matrix.rowD (A : Matrix T) (i : Nat) : List T :=
  A.data.getD i []

/-- The dot product of two indexed families over indices `< k`, folded in
index order from zero: the value the specification assigns to each cell of
a matrix product. -/
def dotProd [Add T] [Mul T] [Zero T] (f g : Nat → T) (k : Nat) : T :=
  (List.range k).foldl (fun acc i => acc + f i * g i) 0

section ListLemmas

variable {α β γ : Type} {ε : Type}

theorem mapM_ok_of_forall (f : α → Except ε β) (g : α → β) :
    ∀ l : List α, (∀ a ∈ l, f a = .ok (g a)) → l.mapM f = .ok (l.map g)
  | [], _ => by simp [List.mapM_nil]; rfl
  | a :: l, h => by
    rw [List.mapM_cons, h a (List.mem_cons_self a l),
      mapM_ok_of_forall f g l fun x hx => h x (List.mem_cons_of_mem a hx)]
    rfl

theorem mapM_ok_length {f : α → Except ε β} :
    ∀ {l : List α} {l' : List β}, l.mapM f = .ok l' → l'.length = l.length
  | [], l', h => by
    simp only [List.mapM_nil] at h
    cases h; rfl
  | a :: l, l', h => by
    rw [List.mapM_cons] at h
    cases hfa : f a with
    | error e => rw [hfa] at h; exact absurd h (by simp [Bind.bind, Except.bind])
    | ok b =>
      rw [hfa] at h
      cases hfl : l.mapM f with
      | error e =>
        rw [hfl] at h
        exact absurd h (by simp [Bind.bind, Except.bind])
      | ok bs =>
        rw [hfl] at h
        simp only [Bind.bind, Except.bind, Pure.pure, Except.pure, Except.ok.injEq] at h
        subst h
        simp [mapM_ok_length hfl]

theorem mapM_ok_mem {f : α → Except ε β} :
    ∀ {l : List α} {l' : List β}, l.mapM f = .ok l' →
      ∀ b ∈ l', ∃ a ∈ l, f a = .ok b
  | [], l', h => by
    simp only [List.mapM_nil] at h
    cases h; intro b hb; cases hb
  | a :: l, l', h => by
    rw [List.mapM_cons] at h
    cases hfa : f a with
    | error e => rw [hfa] at h; exact absurd h (by simp [Bind.bind, Except.bind])
    | ok b =>
      rw [hfa] at h
      cases hfl : l.mapM f with
      | error e =>
        rw [hfl] at h
        exact absurd h (by simp [Bind.bind, Except.bind])
      | ok bs =>
        rw [hfl] at h
        simp only [Bind.bind, Except.bind, Pure.pure, Except.pure, Except.ok.injEq] at h
        subst h
        intro x hx
        rcases List.mem_cons.mp hx with hx | hx
        · exact ⟨a, List.mem_cons_self a l, hx ▸ hfa⟩
        · obtain ⟨a', ha', hfa'⟩ := mapM_ok_mem hfl x hx
          exact ⟨a', List.mem_cons_of_mem a ha', hfa'⟩

theorem mapM_eq_error_of {f : α → Except ε β} {e : ε} :
    ∀ {l : List α}, (∀ a ∈ l, (∃ b, f a = .ok b) ∨ f a = .error e) →
      (∃ a ∈ l, f a = .error e) → l.mapM f = .error e
  | [], _, hex => by
    obtain ⟨a, ha, _⟩ := hex
    cases ha
  | a :: l, hall, hex => by
    rw [List.mapM_cons]
    cases hfa : f a with
    | error e' =>
      have : e' = e := by
        rcases hall a (List.mem_cons_self a l) with ⟨b, hb⟩ | hb
        · rw [hfa] at hb; cases hb
        · rw [hfa] at hb; cases hb; rfl
      subst this
      simp [Bind.bind, Except.bind]
    | ok b =>
      have hrec : l.mapM f = .error e := by
        apply mapM_eq_error_of (fun x hx => hall x (List.mem_cons_of_mem a hx))
        obtain ⟨x, hx, hfx⟩ := hex
        rcases List.mem_cons.mp hx with hx | hx
        · subst hx; rw [hfa] at hfx; cases hfx
        · exact ⟨x, hx, hfx⟩
      rw [hrec]
      rfl

theorem mapM_ok_of_exists {f : α → Except ε β} :
    ∀ {l : List α}, (∀ a ∈ l, ∃ b, f a = .ok b) → ∃ l', l.mapM f = .ok l'
  | [], _ => ⟨[], by simp [List.mapM_nil]; rfl⟩
  | a :: l, h => by
    obtain ⟨b, hb⟩ := h a (List.mem_cons_self a l)
    obtain ⟨l', hl'⟩ :=
      mapM_ok_of_exists fun x hx => h x (List.mem_cons_of_mem a hx)
    exact ⟨b :: l', by rw [List.mapM_cons, hb, hl']; rfl⟩

theorem foldlM_ok_of_forall (f : β → α → Except ε β) (g : β → α → β) :
    ∀ (l : List α) (init : β), (∀ acc, ∀ a ∈ l, f acc a = .ok (g acc a)) →
      l.foldlM f init = .ok (l.foldl g init)
  | [], init, _ => by simp [List.foldlM_nil]; rfl
  | a :: l, init, h => by
    rw [List.foldlM_cons, h init a (List.mem_cons_self a l)]
    exact foldlM_ok_of_forall f g l (g init a)
      fun acc x hx => h acc x (List.mem_cons_of_mem a hx)

theorem foldl_ext_mem {f g : β → α → β} :
    ∀ (l : List α) (init : β), (∀ acc, ∀ a ∈ l, f acc a = g acc a) →
      l.foldl f init = l.foldl g init
  | [], _, _ => rfl
  | a :: l, init, h => by
    rw [List.foldl_cons, List.foldl_cons, h init a (List.mem_cons_self a l)]
    exact foldl_ext_mem l _ fun acc x hx => h acc x (List.mem_cons_of_mem a hx)

theorem foldl_range_getD (f : β → α → β) (d : α) (l : List α) (init : β) :
    (List.range l.length).foldl (fun acc j => f acc (l.getD j d)) init =
      l.foldl f init := by
  have hmap : ((List.range l.length).map fun j => l.getD j d) = l := by
    apply List.ext_get
    · simp
    · intro n h1 h2
      simp only [List.get_eq_getElem, List.getElem_map, List.getElem_range]
      exact List.getD_eq_getElem l d h2
  have := List.foldl_map (fun j => l.getD j d) f (List.range l.length) init
  rw [hmap] at this
  exact this.symm

theorem foldl_and (q : α → Bool) :
    ∀ (l : List α) (b : Bool),
      l.foldl (fun flag x => flag && q x) b = (b && l.all q)
  | [], b => by simp
  | a :: l, b => by
    rw [List.foldl_cons, foldl_and q l]
    simp [List.all_cons, Bool.and_assoc]

theorem ite_flag_and {p : Prop} [Decidable p] (b : Bool) :
    (if p then b else false) = (b && decide p) := by
  by_cases h : p <;> simp [h]

end ListLemmas

section MatrixLemmas

theorem Matrix.at'_ok [Inhabited T] (A : Matrix T) (hwf : A.wf) {i j : Nat}
    (hi : i < A.m) (hj : j < A.n) : A.at' i j = .ok (A.cellD i j) := by
  obtain ⟨hlen, hrow⟩ := hwf
  have hi' : i < A.data.length := by omega
  have hj' : j < A.data[i].length := by
    rw [hrow _ (List.getElem_mem hi')]; omega
  unfold Matrix.at' Matrix.cellD
  simp only [List.getElem?_eq_getElem hi', List.getElem?_eq_getElem hj',
    List.getD_eq_getElem _ _ hi', List.getD_eq_getElem _ _ hj']

theorem Matrix.at'_oob (A : Matrix T) (hwf : A.wf) {i j : Nat}
    (h : A.m ≤ i ∨ A.n ≤ j) : A.at' i j = .error .outOfBounds := by
  obtain ⟨hlen, hrow⟩ := hwf
  unfold Matrix.at'
  by_cases hi : i < A.data.length
  · have hn : A.n ≤ j := by
      rcases h with h | h
      · omega
      · exact h
    have hnone : A.data[i][j]? = none :=
      List.getElem?_eq_none (by rw [hrow _ (List.getElem_mem hi)]; omega)
    simp only [List.getElem?_eq_getElem hi, hnone]
  · simp only [List.getElem?_eq_none (show A.data.length ≤ i by omega)]

theorem Matrix.from_fn_m (m n : Nat) (g : Nat → Nat → T) :
    (Matrix.from_fn m n g).m = m := rfl

theorem Matrix.from_fn_n (m n : Nat) (g : Nat → Nat → T) :
    (Matrix.from_fn m n g).n = n := rfl

theorem Matrix.from_fn_wf (m n : Nat) (g : Nat → Nat → T) :
    (Matrix.from_fn m n g).wf := by
  constructor
  · simp [Matrix.from_fn]
  · intro r hr
    simp only [Matrix.from_fn, List.mem_map] at hr
    obtain ⟨i, _, hi⟩ := hr
    simp [Matrix.from_fn, ← hi]

theorem Matrix.cellD_from_fn [Inhabited T] (m n : Nat) (g : Nat → Nat → T)
    {i j : Nat} (hi : i < m) (hj : j < n) :
    (Matrix.from_fn m n g).cellD i j = g i j := by
  unfold Matrix.cellD Matrix.from_fn
  have h1 :
      i < ((List.range m).map fun i => (List.range n).map fun j => g i j).length := by
    simp [hi]
  rw [List.getD_eq_getElem _ _ h1]
  simp only [List.getElem_map, List.getElem_range]
  have h2 : j < ((List.range n).map fun j => g i j).length := by simp [hj]
  rw [List.getD_eq_getElem _ _ h2]
  simp

theorem Matrix.at'_from_fn [Inhabited T] (m n : Nat) (g : Nat → Nat → T)
    {i j : Nat} (hi : i < m) (hj : j < n) :
    (Matrix.from_fn m n g).at' i j = .ok (g i j) := by
  rw [Matrix.at'_ok _ (Matrix.from_fn_wf m n g) hi hj,
    Matrix.cellD_from_fn m n g hi hj]

theorem Matrix.from_fn_cellD_self [Inhabited T] (A : Matrix T) (hwf : A.wf) :
    Matrix.from_fn A.m A.n (fun i j => A.cellD i j) = A := by
  obtain ⟨hlen, hrow⟩ := hwf
  obtain ⟨m, n, data⟩ := A
  simp only at hlen hrow
  simp only [Matrix.from_fn, Matrix.mk.injEq, true_and]
  apply List.ext_get
  · simp [hlen]
  · intro i h1 h2
    simp only [List.get_eq_getElem, List.getElem_map, List.getElem_range]
    apply List.ext_get
    · simp [hrow _ (List.getElem_mem h2)]
    · intro j h3 h4
      simp only [List.get_eq_getElem, List.getElem_map, List.getElem_range]
      show Matrix.cellD ⟨m, n, data⟩ i j = _
      unfold Matrix.cellD
      rw [List.getD_eq_getElem _ _ h2, List.getD_eq_getElem _ _ h4]

theorem Except.map_eq_ok {ε α β : Type} {f : α → β} {x : Except ε α}
    {b : β} (h : x.map f = .ok b) : ∃ a, x = .ok a ∧ f a = b := by
  cases x with
  | error e => simp [Except.map] at h
  | ok a =>
    refine ⟨a, rfl, ?val⟩
    simpa [Except.map] using h

theorem Matrix.from_fnE_ok (m n : Nat) (f : Nat → Nat → Except MErr T)
    (g : Nat → Nat → T) (h : ∀ i < m, ∀ j < n, f i j = .ok (g i j)) :
    Matrix.from_fnE m n f = .ok (Matrix.from_fn m n g) := by
  unfold Matrix.from_fnE
  rw [mapM_ok_of_forall _ (fun i => (List.range n).map fun j => g i j) _ ?rows]
  · rfl
  · intro i hi
    exact mapM_ok_of_forall _ _ _ fun j hj =>
      h i (List.mem_range.mp hi) j (List.mem_range.mp hj)

theorem Matrix.from_fnE_ok_inv {m n : Nat} {f : Nat → Nat → Except MErr T}
    {C : Matrix T} (h : Matrix.from_fnE m n f = .ok C) :
    C.m = m ∧ C.n = n ∧ C.wf := by
  unfold Matrix.from_fnE at h
  obtain ⟨d, hd, hC⟩ := Except.map_eq_ok h
  subst hC
  refine ⟨rfl, rfl, ?wf⟩
  constructor
  · show d.length = m
    rw [mapM_ok_length hd, List.length_range]
  · intro r hr
    obtain ⟨i, _, hfi⟩ := mapM_ok_mem hd r hr
    show r.length = n
    rw [mapM_ok_length hfi, List.length_range]

theorem Matrix.from_fnE_error {m n : Nat} {f : Nat → Nat → Except MErr T}
    {e : MErr}
    (hall : ∀ i < m, ∀ j < n, (∃ x, f i j = .ok x) ∨ f i j = .error e)
    (hex : ∃ i < m, ∃ j < n, f i j = .error e) :
    Matrix.from_fnE m n f = .error e := by
  unfold Matrix.from_fnE
  rw [mapM_eq_error_of ?rows ?hit]
  · rfl
  · intro i hi
    have hi' := List.mem_range.mp hi
    by_cases hok : ∀ j < n, ∃ x, f i j = .ok x
    · exact Or.inl
        (mapM_ok_of_exists fun j hj => hok j (List.mem_range.mp hj))
    · right
      push_neg at hok
      obtain ⟨j, hj, hnone⟩ := hok
      apply mapM_eq_error_of
      · intro j' hj'
        rcases hall i hi' j' (List.mem_range.mp hj') with h | h
        · exact Or.inl h
        · exact Or.inr h
      · refine ⟨j, List.mem_range.mpr hj, ?err⟩
        rcases hall i hi' j hj with ⟨x, hx⟩ | h
        · exact absurd hx (hnone x)
        · exact h
  · obtain ⟨i, hi, j, hj, hfe⟩ := hex
    refine ⟨i, List.mem_range.mpr hi, ?inner⟩
    apply mapM_eq_error_of
    · intro j' hj'
      exact hall i hi j' (List.mem_range.mp hj')
    · exact ⟨j, List.mem_range.mpr hj, hfe⟩

theorem Matrix.from_T_wf (m n : Nat) (v : T) : (Matrix.from_T m n v).wf := by
  constructor
  · simp [Matrix.from_T]
  · intro r hr
    simp only [Matrix.from_T, List.mem_map] at hr
    obtain ⟨i, _, hi⟩ := hr
    simp [← hi, Matrix.from_T]

theorem Matrix.row_ok (A : Matrix T) {i : Nat} (hlen : A.data.length = A.m)
    (hi : i < A.m) : A.row i = .ok ⟨1, A.n, [A.rowD i]⟩ := by
  unfold Matrix.row Matrix.rowD
  have hi' : i < A.data.length := by omega
  simp only [List.getElem?_eq_getElem hi', List.getD_eq_getElem _ _ hi']

theorem Matrix.row_mtx_wf (A : Matrix T) {i : Nat} (hA : A.wf) (hi : i < A.m) :
    (Matrix.mk 1 A.n [A.rowD i]).wf := by
  refine ⟨rfl, ?rows⟩
  intro r hr
  have hi' : i < A.data.length := by rw [hA.1]; exact hi
  have : r = A.rowD i := by simpa using hr
  subst this
  unfold Matrix.rowD
  rw [List.getD_eq_getElem _ _ hi']
  exact hA.2 _ (List.getElem_mem hi')

theorem Matrix.row_mtx_cellD [Inhabited T] (A : Matrix T) (i k : Nat) :
    (Matrix.mk 1 A.n [A.rowD i]).cellD 0 k = A.cellD i k := rfl

theorem Matrix.col_ok [Inhabited T] (B : Matrix T) {j : Nat} (hB : B.wf)
    (hj : j < B.n) :
    B.col j = .ok ⟨B.m, 1, (List.range B.m).map fun k => [B.cellD k j]⟩ := by
  unfold Matrix.col
  rw [mapM_ok_of_forall _ (fun k => [B.cellD k j]) _ ?cells]
  · rfl
  · intro k hk
    rw [B.at'_ok hB (List.mem_range.mp hk) hj]
    rfl

theorem Matrix.col_mtx_wf [Inhabited T] (B : Matrix T) (j : Nat) :
    (Matrix.mk B.m 1 ((List.range B.m).map fun k => [B.cellD k j])).wf := by
  refine ⟨by simp, ?rows⟩
  intro r hr
  simp only [List.mem_map] at hr
  obtain ⟨k, _, hk⟩ := hr
  simp [← hk]

theorem Matrix.col_mtx_cellD [Inhabited T] (B : Matrix T) {j k : Nat}
    (hk : k < B.m) :
    (Matrix.mk B.m 1 ((List.range B.m).map fun i => [B.cellD i j])).cellD k 0 =
      B.cellD k j := by
  show (((List.range B.m).map fun i => [B.cellD i j]).getD k []).getD 0 default = _
  have hk' : k < ((List.range B.m).map fun i => [B.cellD i j]).length := by
    simp [hk]
  rw [List.getD_eq_getElem _ _ hk']
  simp only [List.getElem_map, List.getElem_range]
  rfl

theorem Matrix.dot_row_col [Inhabited T] [Add T] [Mul T] [Zero T]
    (A B : Matrix T) {i j : Nat} (hA : A.wf) (hnm : A.n = B.m)
    (hi : i < A.m) :
    (Matrix.mk 1 A.n [A.rowD i]).dot
      (Matrix.mk B.m 1 ((List.range B.m).map fun k => [B.cellD k j])) =
      .ok (dotProd (fun k => A.cellD i k) (fun k => B.cellD k j) A.n) := by
  unfold Matrix.dot dotProd
  apply foldlM_ok_of_forall
  intro acc k hk
  have hk' : k < A.n := List.mem_range.mp hk
  rw [(Matrix.mk 1 A.n [A.rowD i]).at'_ok (A.row_mtx_wf hA hi) Nat.one_pos hk',
    (Matrix.mk B.m 1 _).at'_ok (B.col_mtx_wf j) (show k < B.m by omega)
      Nat.one_pos,
    Matrix.row_mtx_cellD, Matrix.col_mtx_cellD B (by omega)]
  rfl

theorem Matrix.augment_ok [Inhabited T] (A B : Matrix T) (hA : A.wf)
    (hB : B.wf) (h : A.m ≤ B.m ∨ B.n = 0) :
    A.augment B = .ok (Matrix.from_fn A.m (A.n + B.n) fun i j =>
      if j < A.n then A.cellD i j else B.cellD i (j - A.n)) := by
  unfold Matrix.augment
  apply Matrix.from_fnE_ok
  intro i hi j hj
  by_cases hjn : j < A.n
  · simp only [if_pos hjn]
    exact A.at'_ok hA hi hjn
  · simp only [if_neg hjn]
    have hBm : i < B.m := by
      rcases h with h | h
      · omega
      · omega
    exact B.at'_ok hB hBm (by omega)

end MatrixLemmas

section Claims

/-- Claim C1: multiplication `A * B` asserts `A.n == B.m` and fails with an
assertion violation otherwise; when the precondition holds the result is an
`A.m × B.n` matrix whose cell `(i,j)` is the dot product of row `i` of `A`
with column `j` of `B`, the sum over `k < A.n` of `A.at(i,k) * B.at(k,j)`. -/
theorem mul_spec {T : Type} [Inhabited T] [Add T] [Mul T] [Zero T]
    (A B : Matrix T) :
    (A.n ≠ B.m → A.mul B = .error .assertionFailed) ∧
    (A.wf → B.wf → A.n = B.m →
      ∃ C, A.mul B = .ok C ∧ C.m = A.m ∧ C.n = B.n ∧ C.wf ∧
        ∀ i < A.m, ∀ j < B.n, C.at' i j =
          .ok (dotProd (fun k => A.cellD i k) (fun k => B.cellD k j) A.n)) := by
  constructor
  · intro hne
    unfold Matrix.mul
    rw [if_neg hne]
  · intro hA hB hnm
    refine ⟨Matrix.from_fn A.m B.n fun i j =>
      dotProd (fun k => A.cellD i k) (fun k => B.cellD k j) A.n,
      ?req, rfl, rfl, Matrix.from_fn_wf _ _ _, ?cells⟩
    · unfold Matrix.mul
      rw [if_pos hnm]
      apply Matrix.from_fnE_ok
      intro i hi j hj
      rw [A.row_ok hA.1 hi]
      rw [B.col_ok hB hj]
      exact A.dot_row_col B hA hnm hi
    · intro i hi j hj
      exact Matrix.at'_from_fn _ _ _ hi hj

/-- Witness for C1 at `A = from_T 2 3 1`, `B = from_T 3 2 1` over `Int`. -/
theorem mul_spec_witness :
    ∃ C, (Matrix.from_T 2 3 (1 : Int)).mul (Matrix.from_T 3 2 (1 : Int)) =
        .ok C ∧
      C.m = (Matrix.from_T 2 3 (1 : Int)).m ∧
      C.n = (Matrix.from_T 3 2 (1 : Int)).n ∧ C.wf ∧
      ∀ i < (Matrix.from_T 2 3 (1 : Int)).m,
        ∀ j < (Matrix.from_T 3 2 (1 : Int)).n,
          C.at' i j = .ok (dotProd
            (fun k => (Matrix.from_T 2 3 (1 : Int)).cellD i k)
            (fun k => (Matrix.from_T 3 2 (1 : Int)).cellD k j)
            (Matrix.from_T 2 3 (1 : Int)).n) :=
  (mul_spec (Matrix.from_T 2 3 (1 : Int)) (Matrix.from_T 3 2 (1 : Int))).2
    (by decide) (by decide) rfl

/-- Claim C2: for every total generator, `from_fn(m, n, g).at(i, j)` returns
`g(i, j)` for every `i < m`, `j < n`. -/
theorem from_fn_at_spec {T : Type} (m n : Nat) (g : Nat → Nat → T)
    (i j : Nat) (hi : i < m) (hj : j < n) :
    (Matrix.from_fn m n g).at' i j = .ok (g i j) := by
  unfold Matrix.at' Matrix.from_fn
  have h1 :
      i < ((List.range m).map fun i => (List.range n).map fun j => g i j).length := by
    simp [hi]
  simp only [List.getElem?_eq_getElem h1, List.getElem_map, List.getElem_range]
  have h2 : j < ((List.range n).map fun j => g i j).length := by simp [hj]
  simp only [List.getElem?_eq_getElem h2, List.getElem_map, List.getElem_range]

/-- Witness for C2 at `m = 2`, `n = 3`, `g i j = 10 * i + j`, cell (1,2). -/
theorem from_fn_at_spec_witness :
    (Matrix.from_fn 2 3 fun i j => (10 * i + j : Int)).at' 1 2 =
      .ok (10 * 1 + 2 : Int) :=
  from_fn_at_spec 2 3 (fun i j => (10 * i + j : Int)) 1 2 (by decide) (by decide)

/-- Claim C4: `at(row, col)` and the index operator fail with an
out-of-bounds error exactly when `row >= m` or `col >= n`, otherwise return
the stored element; the index operator forwards to `at`. -/
theorem at_index_spec {T : Type} [Inhabited T] (A : Matrix T) (r c : Nat)
    (hA : A.wf) :
    ((A.m ≤ r ∨ A.n ≤ c) → A.at' r c = .error .outOfBounds) ∧
    (r < A.m → c < A.n → A.at' r c = .ok (A.cellD r c)) ∧
    A.index (r, c) = A.at' r c :=
  ⟨fun h => A.at'_oob hA h, fun hr hc => A.at'_ok hA hr hc, rfl⟩

/-- Witness for C4 at a 2×2 matrix with `row == m` (one past the end). -/
theorem at_index_spec_witness :
    (((Matrix.from_T 2 2 (7 : Int)).m ≤ 2 ∨ (Matrix.from_T 2 2 (7 : Int)).n ≤ 0) →
      (Matrix.from_T 2 2 (7 : Int)).at' 2 0 = .error .outOfBounds) ∧
    (2 < (Matrix.from_T 2 2 (7 : Int)).m → 0 < (Matrix.from_T 2 2 (7 : Int)).n →
      (Matrix.from_T 2 2 (7 : Int)).at' 2 0 =
        .ok ((Matrix.from_T 2 2 (7 : Int)).cellD 2 0)) ∧
    (Matrix.from_T 2 2 (7 : Int)).index (2, 0) =
      (Matrix.from_T 2 2 (7 : Int)).at' 2 0 :=
  at_index_spec (Matrix.from_T 2 2 (7 : Int)) 2 0 (by decide)

/-- Claim C5: for every well-formed matrix of any shape,
`A.transpose().transpose()` recovers `A` exactly. -/
theorem transpose_involutive_spec {T : Type} [Inhabited T] (A : Matrix T)
    (hA : A.wf) : ∃ B, A.transpose = .ok B ∧ B.transpose = .ok A := by
  refine ⟨Matrix.from_fn A.n A.m fun i j => A.cellD j i, ?fst, ?snd⟩
  · unfold Matrix.transpose
    apply Matrix.from_fnE_ok
    intro i hi j hj
    exact A.at'_ok hA hj hi
  · have h2 : (Matrix.from_fn A.n A.m fun i j => A.cellD j i).transpose =
        .ok (Matrix.from_fn A.m A.n fun i j => A.cellD i j) := by
      unfold Matrix.transpose
      apply Matrix.from_fnE_ok
      intro i hi j hj
      exact Matrix.at'_from_fn A.n A.m _ hj hi
    rw [h2, A.from_fn_cellD_self hA]

/-- Witness for C5 at a 2×3 matrix with pairwise distinct cells. -/
theorem transpose_involutive_spec_witness :
    ∃ B, (Matrix.from_fn 2 3 fun i j => (3 * i + j : Int)).transpose = .ok B ∧
      B.transpose = .ok (Matrix.from_fn 2 3 fun i j => (3 * i + j : Int)) :=
  transpose_involutive_spec (Matrix.from_fn 2 3 fun i j => (3 * i + j : Int))
    (by decide)

/-- Claim C6: addition asserts identical shapes, failing with an assertion
violation otherwise (e.g. 2×2 plus 2×3 fails); on matching shapes the result
has the same shape and cell `(i,j)` equals `A.at(i,j) + B.at(i,j)`. -/
theorem add_spec {T : Type} [Inhabited T] [Add T] (A B : Matrix T) :
    (A.size ≠ B.size → A.add B = .error .assertionFailed) ∧
    (A.wf → B.wf → A.size = B.size →
      ∃ C, A.add B = .ok C ∧ C.m = A.m ∧ C.n = A.n ∧ C.wf ∧
        ∀ i < A.m, ∀ j < A.n,
          C.at' i j = .ok (A.cellD i j + B.cellD i j)) := by
  constructor
  · intro hne
    unfold Matrix.add
    rw [if_neg hne]
  · intro hA hB hsz
    have hmn : B.m = A.m ∧ B.n = A.n := by
      unfold Matrix.size at hsz
      exact ⟨(Prod.mk.injEq _ _ _ _ ▸ hsz).1.symm,
        (Prod.mk.injEq _ _ _ _ ▸ hsz).2.symm⟩
    refine ⟨Matrix.from_fn A.m A.n fun i j => A.cellD i j + B.cellD i j,
      ?req, rfl, rfl, Matrix.from_fn_wf _ _ _, ?cells⟩
    · unfold Matrix.add
      rw [if_pos hsz]
      apply Matrix.from_fnE_ok
      intro i hi j hj
      rw [A.at'_ok hA hi hj, B.at'_ok hB (by omega) (by omega)]
      rfl
    · intro i hi j hj
      exact Matrix.at'_from_fn _ _ _ hi hj

/-- Witness for C6: the failure side at 2×2 plus 2×3 and the success side
at two 2×2 matrices, over `Int`. -/
theorem add_spec_witness :
    ((Matrix.from_T 2 2 (1 : Int)).size ≠ (Matrix.from_T 2 3 (1 : Int)).size →
      (Matrix.from_T 2 2 (1 : Int)).add (Matrix.from_T 2 3 (1 : Int)) =
        .error .assertionFailed) ∧
    ∃ C, (Matrix.from_T 2 2 (1 : Int)).add (Matrix.from_T 2 2 (2 : Int)) =
        .ok C ∧
      C.m = (Matrix.from_T 2 2 (1 : Int)).m ∧
      C.n = (Matrix.from_T 2 2 (1 : Int)).n ∧ C.wf ∧
      ∀ i < (Matrix.from_T 2 2 (1 : Int)).m,
        ∀ j < (Matrix.from_T 2 2 (1 : Int)).n,
          C.at' i j = .ok ((Matrix.from_T 2 2 (1 : Int)).cellD i j +
            (Matrix.from_T 2 2 (2 : Int)).cellD i j) :=
  ⟨(add_spec (Matrix.from_T 2 2 (1 : Int)) (Matrix.from_T 2 3 (1 : Int))).1,
    (add_spec (Matrix.from_T 2 2 (1 : Int)) (Matrix.from_T 2 2 (2 : Int))).2
      (by decide) (by decide) rfl⟩

/-- Counterexample for C3: augmenting a 1×1 matrix with a 2×1 matrix —
row counts differ — succeeds and returns a 1×2 result matrix, so unequal
row counts do not make `augment` fail. -/
theorem augment_unequal_rows_ok_cex :
    (Matrix.from_T 1 1 (0 : Int)).m ≠ (Matrix.from_T 2 1 (0 : Int)).m ∧
    (Matrix.from_T 1 1 (0 : Int)).augment (Matrix.from_T 2 1 (0 : Int)) =
      .ok ⟨1, 2, [[0, 0]]⟩ :=
  ⟨by decide, rfl⟩

/-- Claim C3 (amended): `augment` performs no row-count assertion.  It
fails — with an out-of-bounds error, not an assertion violation — exactly
when the other matrix has fewer rows than `self` and at least one column;
whenever the other matrix has at least as many rows (or no columns), the
call returns a result matrix even though the row counts differ. -/
theorem augment_no_assert_spec {T : Type} [Inhabited T] (A B : Matrix T)
    (hA : A.wf) (hB : B.wf) :
    (B.m < A.m → 0 < B.n → A.augment B = .error .outOfBounds) ∧
    (A.m ≤ B.m ∨ B.n = 0 → ∃ C, A.augment B = .ok C) := by
  constructor
  · intro hlt hpos
    unfold Matrix.augment
    apply Matrix.from_fnE_error
    · intro i hi j hj
      by_cases hjn : j < A.n
      · exact Or.inl ⟨A.cellD i j, by rw [if_pos hjn]; exact A.at'_ok hA hi hjn⟩
      · by_cases hiB : i < B.m
        · exact Or.inl ⟨B.cellD i (j - A.n),
            by rw [if_neg hjn]; exact B.at'_ok hB hiB (by omega)⟩
        · exact Or.inr
            (by rw [if_neg hjn]; exact B.at'_oob hB (Or.inl (by omega)))
    · exact ⟨B.m, hlt, A.n, by omega,
        by rw [if_neg (by omega)]; exact B.at'_oob hB (Or.inl (le_refl _))⟩
  · intro h
    exact ⟨_, A.augment_ok B hA hB h⟩

/-- Witness for C3's amended claim: a 2×1 matrix augmented with a 1×1
matrix (fewer rows, one column) fails with an out-of-bounds error. -/
theorem augment_no_assert_spec_witness :
    (Matrix.from_T 2 1 (0 : Int)).augment (Matrix.from_T 1 1 (0 : Int)) =
      .error .outOfBounds :=
  (augment_no_assert_spec (Matrix.from_T 2 1 (0 : Int))
    (Matrix.from_T 1 1 (0 : Int)) (by decide) (by decide)).1
    (by decide) (by decide)

/-- Claim C7: `A == B` holds iff the shapes are identical and every
corresponding cell pair is equal; on a shape mismatch the comparison
returns `false` immediately, for any matrices, without reading a cell. -/
theorem eq_spec {T : Type} [Inhabited T] [DecidableEq T] (A B : Matrix T) :
    (A.size ≠ B.size → A.eq B = .ok false) ∧
    (A.wf → B.wf →
      (A.eq B = .ok true ↔ A.size = B.size ∧
        ∀ i < A.m, ∀ j < A.n, A.cellD i j = B.cellD i j)) := by
  constructor
  · intro hne
    unfold Matrix.eq
    rw [if_neg hne]
  · intro hA hB
    by_cases hsz : A.size = B.size
    · have hmn : B.m = A.m ∧ B.n = A.n := by
        unfold Matrix.size at hsz
        exact ⟨(Prod.mk.injEq _ _ _ _ ▸ hsz).1.symm,
          (Prod.mk.injEq _ _ _ _ ▸ hsz).2.symm⟩
      have hok : A.eq B = .ok ((List.range A.m).all fun i =>
          (List.range A.n).all fun j =>
            decide (A.cellD i j = B.cellD i j)) := by
        unfold Matrix.eq
        rw [if_pos hsz]
        rw [foldlM_ok_of_forall _
          (fun equal i => equal && ((List.range A.n).all fun j =>
            decide (A.cellD i j = B.cellD i j)))
          (List.range A.m) true ?steps]
        · rw [foldl_and]
          simp
        · intro acc i hi
          have hi' := List.mem_range.mp hi
          rw [foldlM_ok_of_forall _
            (fun eq2 j => eq2 && decide (A.cellD i j = B.cellD i j))
            (List.range A.n) acc ?inner]
          · rw [foldl_and]
          · intro acc2 j hj
            have hj' := List.mem_range.mp hj
            rw [A.at'_ok hA hi' hj', B.at'_ok hB (by omega) (by omega)]
            show Except.ok (if A.cellD i j = B.cellD i j then acc2 else false) = _
            rw [ite_flag_and]
      rw [hok]
      simp only [Except.ok.injEq, List.all_eq_true, List.mem_range,
        decide_eq_true_eq]
      constructor
      · intro h
        exact ⟨hsz, h⟩
      · intro h
        exact h.2
    · have hfe : A.eq B = .ok false := by
        unfold Matrix.eq
        rw [if_neg hsz]
      rw [hfe]
      simp [hsz]

/-- Witness for C7: two equal 2×2 matrices compare `.ok true`, via the
equivalence applied at concrete inputs. -/
theorem eq_spec_witness :
    (Matrix.from_T 2 2 (1 : Int)).eq (Matrix.from_T 2 2 (1 : Int)) =
      .ok true :=
  ((eq_spec (Matrix.from_T 2 2 (1 : Int)) (Matrix.from_T 2 2 (1 : Int))).2
    (by decide) (by decide)).mpr ⟨rfl, by decide⟩

/-- Claim C8: `sum()` folds all `m*n` elements from the additive identity
in row-major order (row 0 left to right, then row 1, ...), i.e. it equals
the left fold of the row-major flattening of the data; concretely
`from_T 2 3 5` has `size() == (2,3)` and `sum() == 30`. -/
theorem sum_spec {T : Type} [Inhabited T] [Add T] [Zero T] (A : Matrix T) :
    (A.wf → A.sum = .ok (A.data.flatten.foldl (fun a b => a + b) 0)) ∧
    (Matrix.from_T 2 3 (5 : Int)).size = (2, 3) ∧
    (Matrix.from_T 2 3 (5 : Int)).sum = .ok 30 := by
  refine ⟨?gen, rfl, rfl⟩
  intro hA
  have hok : A.sum = .ok ((List.range A.m).foldl (fun acc i =>
      (List.range A.n).foldl (fun acc2 j => acc2 + A.cellD i j) acc) 0) := by
    unfold Matrix.sum
    rw [foldlM_ok_of_forall _
      (fun acc i => (List.range A.n).foldl
        (fun acc2 j => acc2 + A.cellD i j) acc)
      (List.range A.m) 0 ?steps]
    intro acc i hi
    rw [foldlM_ok_of_forall _ (fun acc2 j => acc2 + A.cellD i j)
      (List.range A.n) acc ?inner]
    intro acc2 j hj
    rw [A.at'_ok hA (List.mem_range.mp hi) (List.mem_range.mp hj)]
    rfl
  rw [hok]
  congr 1
  rw [List.foldl_flatten]
  rw [← hA.1]
  rw [foldl_ext_mem
    (g := fun acc i => (A.data.getD i []).foldl (fun a b => a + b) acc)
    (List.range A.data.length) 0 ?rows]
  · exact foldl_range_getD
      (fun acc row => row.foldl (fun a b => a + b) acc) [] A.data 0
  · intro acc i hi
    have hi' := List.mem_range.mp hi
    have hrl : (A.data.getD i []).length = A.n := by
      rw [List.getD_eq_getElem _ _ hi']
      exact hA.2 _ (List.getElem_mem hi')
    rw [← hrl]
    exact foldl_range_getD (fun a b => a + b) default (A.data.getD i []) acc

/-- Witness for C8 at a 2×3 matrix with distinct cells: the general
row-major-fold description applied at a concrete input. -/
theorem sum_spec_witness :
    (Matrix.from_fn 2 3 fun i j => (3 * i + j : Int)).sum =
      .ok ((Matrix.from_fn 2 3 fun i j => (3 * i + j : Int)).data.flatten.foldl
        (fun a b => a + b) 0) :=
  (sum_spec (Matrix.from_fn 2 3 fun i j => (3 * i + j : Int))).1 (by decide)

/-- Claim C10: `augment` performs no row-count check: for `B` with at least
as many rows as `A`, the call succeeds with an `A.m × (A.n + B.n)` matrix
whose cell `(i,j)` is `A.at(i,j)` for `j < A.n` and `B.at(i, j - A.n)`
otherwise, silently ignoring `B`'s extra rows. -/
theorem augment_taller_spec {T : Type} [Inhabited T] (A B : Matrix T)
    (hA : A.wf) (hB : B.wf) (hm : A.m ≤ B.m) :
    ∃ C, A.augment B = .ok C ∧ C.m = A.m ∧ C.n = A.n + B.n ∧ C.wf ∧
      ∀ i < A.m, ∀ j < A.n + B.n, C.at' i j =
        .ok (if j < A.n then A.cellD i j else B.cellD i (j - A.n)) := by
  refine ⟨_, A.augment_ok B hA hB (Or.inl hm), rfl, rfl,
    Matrix.from_fn_wf _ _ _, ?cells⟩
  intro i hi j hj
  exact Matrix.at'_from_fn _ _ _ hi hj

/-- Witness for C10: a 1×1 matrix augmented with a taller 2×1 matrix. -/
theorem augment_taller_spec_witness :
    ∃ C, (Matrix.from_T 1 1 (3 : Int)).augment (Matrix.from_T 2 1 (4 : Int)) =
        .ok C ∧
      C.m = (Matrix.from_T 1 1 (3 : Int)).m ∧
      C.n = (Matrix.from_T 1 1 (3 : Int)).n + (Matrix.from_T 2 1 (4 : Int)).n ∧
      C.wf ∧
      ∀ i < (Matrix.from_T 1 1 (3 : Int)).m,
        ∀ j < (Matrix.from_T 1 1 (3 : Int)).n + (Matrix.from_T 2 1 (4 : Int)).n,
          C.at' i j = .ok (if j < (Matrix.from_T 1 1 (3 : Int)).n then
            (Matrix.from_T 1 1 (3 : Int)).cellD i j
          else (Matrix.from_T 2 1 (4 : Int)).cellD
            i (j - (Matrix.from_T 1 1 (3 : Int)).n)) :=
  augment_taller_spec (Matrix.from_T 1 1 (3 : Int))
    (Matrix.from_T 2 1 (4 : Int)) (by decide) (by decide) (by decide)

/-- Claim C9: every matrix produced by a constructor or operation of the
library satisfies the shape invariant — its data table has exactly `m` rows
of exactly `n` entries each, for the `(m, n)` reported by `size()`; in
particular `row` yields a well-formed 1×n matrix and `col` a well-formed
m×1 matrix. -/
theorem shape_invariant_spec :
    (∀ (T : Type) (m n : Nat) (g : Nat → Nat → T),
      (Matrix.from_fn m n g).wf ∧ (Matrix.from_fn m n g).size = (m, n)) ∧
    (∀ (T : Type) (m n : Nat) (v : T),
      (Matrix.from_T m n v).wf ∧ (Matrix.from_T m n v).size = (m, n)) ∧
    (∀ (T : Type) (A B : Matrix T) (r : Nat),
      A.wf → A.row r = .ok B → B.wf ∧ B.m = 1 ∧ B.n = A.n) ∧
    (∀ (T : Type) (A B : Matrix T) (c : Nat),
      A.col c = .ok B → B.wf ∧ B.m = A.m ∧ B.n = 1) ∧
    (∀ (T : Type) (A B C : Matrix T),
      A.augment B = .ok C → C.wf ∧ C.m = A.m ∧ C.n = A.n + B.n) ∧
    (∀ (T : Type) (A B : Matrix T),
      A.transpose = .ok B → B.wf ∧ B.m = A.n ∧ B.n = A.m) ∧
    (∀ (T : Type) (f : T → T) (A B : Matrix T),
      A.map f = .ok B → B.wf ∧ B.m = A.m ∧ B.n = A.n) ∧
    (∀ (T : Type) [Add T] (A B C : Matrix T),
      A.add B = .ok C → C.wf ∧ C.m = A.m ∧ C.n = A.n) ∧
    (∀ (T : Type) [Neg T] (A B : Matrix T),
      A.neg = .ok B → B.wf ∧ B.m = A.m ∧ B.n = A.n) ∧
    (∀ (T : Type) [Add T] [Neg T] (A B C : Matrix T),
      A.sub B = .ok C → C.wf ∧ C.m = A.m ∧ C.n = A.n) ∧
    (∀ (T : Type) [Add T] [Mul T] [Zero T] (A B C : Matrix T),
      A.mul B = .ok C → C.wf ∧ C.m = A.m ∧ C.n = B.n) ∧
    (∀ (T : Type) (A B : Matrix T), A.not = .ok B → B.wf) ∧
    (∀ (T : Type) (A B C : Matrix T), A.bitor B = .ok C → C.wf) := by
  refine ⟨?fn, ?fT, ?row, ?col, ?aug, ?tr, ?mp, ?add, ?neg, ?sub, ?mul,
    ?no, ?bo⟩
  · intro T m n g
    exact ⟨Matrix.from_fn_wf m n g, rfl⟩
  · intro T m n v
    exact ⟨Matrix.from_T_wf m n v, rfl⟩
  · intro T A B r hA h
    unfold Matrix.row at h
    cases hr : A.data[r]? with
    | none => rw [hr] at h; cases h
    | some rowl =>
      rw [hr] at h
      cases h
      obtain ⟨hlt, hget⟩ := List.getElem?_eq_some.mp hr
      have hmem : rowl ∈ A.data := hget ▸ List.getElem_mem hlt
      exact ⟨⟨rfl, fun s hs => by
        have : s = rowl := by simpa using hs
        subst this
        exact hA.2 _ hmem⟩, rfl, rfl⟩
  · intro T A B c h
    unfold Matrix.col at h
    obtain ⟨d, hd, hBeq⟩ := Except.map_eq_ok h
    subst hBeq
    refine ⟨⟨?len, ?rows⟩, rfl, rfl⟩
    · show d.length = A.m
      rw [mapM_ok_length hd, List.length_range]
    · intro s hs
      obtain ⟨k, _, hfk⟩ := mapM_ok_mem hd s hs
      obtain ⟨x, _, hrx⟩ := Except.map_eq_ok hfk
      rw [← hrx]
      rfl
  · intro T A B C h
    unfold Matrix.augment at h
    obtain ⟨h1, h2, h3⟩ := Matrix.from_fnE_ok_inv h
    exact ⟨h3, h1, h2⟩
  · intro T A B h
    unfold Matrix.transpose at h
    obtain ⟨h1, h2, h3⟩ := Matrix.from_fnE_ok_inv h
    exact ⟨h3, h1, h2⟩
  · intro T f A B h
    unfold Matrix.map at h
    obtain ⟨h1, h2, h3⟩ := Matrix.from_fnE_ok_inv h
    exact ⟨h3, h1, h2⟩
  · intro T instA A B C h
    unfold Matrix.add at h
    by_cases hsz : A.size = B.size
    · rw [if_pos hsz] at h
      obtain ⟨h1, h2, h3⟩ := Matrix.from_fnE_ok_inv h
      exact ⟨h3, h1, h2⟩
    · rw [if_neg hsz] at h
      cases h
  · intro T instN A B h
    unfold Matrix.neg Matrix.map at h
    obtain ⟨h1, h2, h3⟩ := Matrix.from_fnE_ok_inv h
    exact ⟨h3, h1, h2⟩
  · intro T instA instN A B C h
    unfold Matrix.sub at h
    cases hneg : B.neg with
    | error e => rw [hneg] at h; cases h
    | ok nb =>
      rw [hneg] at h
      have h' : A.add nb = .ok C := h
      unfold Matrix.add at h'
      by_cases hsz : A.size = nb.size
      · rw [if_pos hsz] at h'
        obtain ⟨h1, h2, h3⟩ := Matrix.from_fnE_ok_inv h'
        exact ⟨h3, h1, h2⟩
      · rw [if_neg hsz] at h'
        cases h'
  · intro T instA instM instZ A B C h
    unfold Matrix.mul at h
    by_cases hnm : A.n = B.m
    · rw [if_pos hnm] at h
      obtain ⟨h1, h2, h3⟩ := Matrix.from_fnE_ok_inv h
      exact ⟨h3, h1, h2⟩
    · rw [if_neg hnm] at h
      cases h
  · intro T A B h
    unfold Matrix.not Matrix.transpose at h
    exact (Matrix.from_fnE_ok_inv h).2.2
  · intro T A B C h
    unfold Matrix.bitor Matrix.augment at h
    exact (Matrix.from_fnE_ok_inv h).2.2

/-- Witness for C9: the row-extraction part applied at `from_T 2 2 5` over
`Int`, whose row 0 is the well-formed 1×2 matrix `[[5, 5]]`. -/
theorem shape_invariant_spec_witness :
    (⟨1, 2, [[5, 5]]⟩ : Matrix Int).wf ∧
    (⟨1, 2, [[5, 5]]⟩ : Matrix Int).m = 1 ∧
    (⟨1, 2, [[5, 5]]⟩ : Matrix Int).n = (Matrix.from_T 2 2 (5 : Int)).n :=
  shape_invariant_spec.2.2.1 Int (Matrix.from_T 2 2 (5 : Int))
    ⟨1, 2, [[5, 5]]⟩ 0 (by decide) rfl

end Claims

end Matrixrs
